import Mathlib

/-!
Verification of the bilingual PII detection and redaction engine
(`chatbot_api/pii_utils.py`, class `BilingualPIIDetector`).

The engine is embedded shallowly:
* texts are lists of characters, with Python's clamp-safe slicing rendered
  as `List.take` / `List.drop`;
* the external language classifier (an LLM call) and the two spaCy
  named-entity recognizers are pluggable functions returning `Except`,
  mirroring the fact that a Python exception raised inside them propagates
  out of `detect_pii_entities`;
* the regular-expression pattern matchers are likewise a pluggable function
  producing the ordered list of `(pattern_name, match)` candidates that the
  nested `for pattern_name, pattern in self.regex_patterns.items(): for match
  in re.finditer(...)` loops would yield;
* `raise ValueError(...)` in `_get_replacement` under the `block` strategy
  becomes the `Except.error` constructor `PiiError.blocked`.
-/

set_option maxRecDepth 4000

namespace LegalGuard

/-- A text is a list of characters (Python `str`, by code points). -/
abbrev Text := List Char

/-- The ASCII whitespace characters that Python's `str.strip` / `str.isspace`
recognise (the Unicode extras play no role in the verified properties). -/
def isSpaceChar (c : Char) : Bool :=
  c == ' ' || c == '\t' || c == '\n' || c == '\r' || c == '\x0b' || c == '\x0c'

/-- Python `str.strip()`: remove leading and trailing whitespace. -/
def pyStrip (t : Text) : Text :=
  ((t.dropWhile isSpaceChar).reverse.dropWhile isSpaceChar).reverse

/-- Python `str.isspace()`: true iff the string is non-empty and all
whitespace. -/
def pyIsSpace (t : Text) : Bool :=
  !t.isEmpty && t.all isSpaceChar

/-- A span returned by a spaCy recognizer (`ent.text`, `ent.label_`,
`ent.start_char`, `ent.end_char`). -/
structure Span where
  text : Text
  label : String
  start : Nat
  stop : Nat
  deriving DecidableEq, Repr

/-- One regex candidate: the pattern's dict key (`pattern_name`) together
with `match.group()`, `match.start()`, `match.end()`. -/
structure RegexMatch where
  name : String
  text : Text
  start : Nat
  stop : Nat
  deriving DecidableEq, Repr

/-- The entity dictionaries built by `detect_pii_entities`; `stop` renders
the Python key `end` (a Lean keyword). -/
structure Entity where
  text : Text
  label : String
  start : Nat
  stop : Nat
  source : String
  language : String
  deriving DecidableEq, Repr

/-- Failures of the engine: an unavailable/erroring external model, or the
`ValueError` raised by the `block` strategy (which carries the offending
entity's label and text). -/
inductive PiiError where
  | detectionUnavailable (msg : String)
  | blocked (label : String) (text : Text)
  deriving DecidableEq, Repr

/-- The read-only process-wide handles of `BilingualPIIDetector`: the LLM
language classifier (`detect_language`), the two spaCy pipelines
(`nlp_en` / `nlp_fr`) restricted to their entity spans, and the compiled
`regex_patterns` applied by `re.finditer` in declaration order. -/
structure Detector where
  classify : Text → Except PiiError String
  recog_en : Text → Except PiiError (List Span)
  recog_fr : Text → Except PiiError (List Span)
  patternMatches : Text → List RegexMatch

/-- The person-name label bound to the classified language:
`sensitive_labels_en = {'PERSON'}`, `sensitive_labels_fr = {'PER'}`,
selected by `if language == 'en'`. -/
def sensLabelOf (language : String) : String :=
  if language = "en" then "PERSON" else "PER"

/-- The dictionary appended for a kept spaCy span. -/
def mkSpacyEntity (language : String) (s : Span) : Entity :=
  { text := s.text, label := s.label, start := s.start, stop := s.stop,
    source := "spacy", language := language }

/-- The filter applied to spaCy spans: label in the sensitive set, trimmed
length strictly above 2, and not pure whitespace. -/
def spacyKeep (sens : String) (s : Span) : Bool :=
  s.label == sens && decide (2 < (pyStrip s.text).length) && !(pyIsSpace s.text)

/-- The spaCy stage of `detect_pii_entities`: keep the filtered spans, in
order, tagged with `source = 'spacy'`. -/
def spacyFilter (language sens : String) (spans : List Span) : List Entity :=
  (spans.filter (spacyKeep sens)).map (mkSpacyEntity language)

/-- The dictionary appended for an accepted regex candidate. -/
def mkRegexEntity (language : String) (m : RegexMatch) : Entity :=
  { text := m.text, label := m.name, start := m.start, stop := m.stop,
    source := "regex", language := language }

/-- The overlap test of the aggregation loop:
`not (match.end() <= entity['start'] or match.start() >= entity['end'])`;
`c.start ≥ e.stop` is written `e.stop ≤ c.start`. -/
def overlapB (c e : Entity) : Bool :=
  !(decide (c.stop ≤ e.start) || decide (e.stop ≤ c.start))

/-- One step of the aggregation loop: append the candidate unless it
overlaps some already-accepted entity. -/
def addCandidate (accepted : List Entity) (c : Entity) : List Entity :=
  if accepted.any (fun e => overlapB c e) then accepted else accepted ++ [c]

/-- The aggregation loop over all regex candidates, seeded with the spaCy
entities. -/
def aggregate (accepted : List Entity) (cands : List Entity) : List Entity :=
  cands.foldl addCandidate accepted

/-- The deduplication key `(entity['text'], entity['start'], entity['end'])`. -/
def tripleKey (e : Entity) : Text × Nat × Nat :=
  (e.text, e.start, e.stop)

/-- The dedup pass with its `seen` set (modelled as a list with membership). -/
def dedupAux (seen : List (Text × Nat × Nat)) : List Entity → List Entity
  | [] => []
  | e :: rest =>
    if tripleKey e ∈ seen then dedupAux seen rest
    else e :: dedupAux (tripleKey e :: seen) rest

/-- `unique_entities` of `detect_pii_entities`: drop later entities whose
key triple was already seen. -/
def dedupEntities (l : List Entity) : List Entity :=
  dedupAux [] l

/-- Ascending comparison on `start`, the key of the final
`sorted(..., key=lambda x: x['start'])`. -/
abbrev startLE (a b : Entity) : Prop := a.start ≤ b.start

/-- Descending comparison on `start`, the key of
`sorted(..., key=lambda x: x['start'], reverse=True)` in `redact_pii`. -/
abbrev startGE (a b : Entity) : Prop := b.start ≤ a.start

instance : IsTotal Entity startLE := ⟨fun a b => Nat.le_total a.start b.start⟩

instance : IsTrans Entity startLE := ⟨fun _ _ _ h1 h2 => Nat.le_trans h1 h2⟩

instance : IsTotal Entity startGE := ⟨fun a b => Nat.le_total b.start a.start⟩

instance : IsTrans Entity startGE := ⟨fun _ _ _ h1 h2 => Nat.le_trans h2 h1⟩

/-- The pure part of `detect_pii_entities` after the language and the spaCy
spans are known: filter the spaCy spans, run the aggregation loop over the
regex candidates, deduplicate, and sort ascending by `start` (a stable
sort, as Python's `sorted`). -/
def detectCore (language : String) (spans : List Span) (pats : List RegexMatch) :
    List Entity :=
  List.insertionSort startLE
    (dedupEntities
      (aggregate (spacyFilter language (sensLabelOf language) spans)
        (pats.map (mkRegexEntity language))))

/-- `BilingualPIIDetector.detect_pii_entities`: short-circuit on
empty/whitespace text (`if not text or not text.strip()`), classify the
language, run the recognizer selected by `if language == 'en'`, then the
pure aggregation. A failure of the classifier or of the selected recognizer
propagates. -/
def Detector.detect_pii_entities (d : Detector) (text : Text) :
    Except PiiError (List Entity) :=
  if text.all isSpaceChar then .ok []
  else
    match d.classify text with
    | .error err => .error err
    | .ok language =>
      match (if language = "en" then d.recog_en text else d.recog_fr text) with
      | .error err => .error err
      | .ok spans => .ok (detectCore language spans (d.patternMatches text))

/-- The `redact` marker `f"[REDACTED_{entity['label']}]"`. -/
def redactMarker (e : Entity) : Text :=
  ("[REDACTED_" ++ e.label ++ "]").data

/-- The `mask` replacement. For labels `EMAIL`/`PHONE` the code branches on
`'@' in text`: the email arm is
`f"{parts[0][:2]}***@{parts[1]}"` with `parts = text.split('@')`
(`parts[0]` = before the first `'@'`, `parts[1]` = between the first and the
second), the phone arm is `f"***-***-{text[-4:]}"` for length above 4 and
`"***"` otherwise; all other labels give `f"***{label}***"`. -/
def maskText (e : Entity) : Text :=
  if e.label = "EMAIL" ∨ e.label = "PHONE" then
    if '@' ∈ e.text then
      (e.text.takeWhile (fun c => c != '@')).take 2 ++ "***@".data ++
        ((e.text.dropWhile (fun c => c != '@')).drop 1).takeWhile (fun c => c != '@')
    else
      if 4 < e.text.length then "***-***-".data ++ e.text.drop (e.text.length - 4)
      else "***".data
  else "***".data ++ e.label.data ++ "***".data

/-- `BilingualPIIDetector._get_replacement`: `redact` and unknown strategies
give the marker, `mask` gives the partial disclosure, `block` raises. -/
def get_replacement (e : Entity) (strategy : String) : Except PiiError Text :=
  if strategy = "redact" then .ok (redactMarker e)
  else if strategy = "mask" then .ok (maskText e)
  else if strategy = "block" then .error (.blocked e.label e.text)
  else .ok (redactMarker e)

/-- The replacement loop of `redact_pii` over an already ordered entity
list: each step splices
`redacted_text[:start] + replacement + redacted_text[end:]`. -/
def redactLoop (strategy : String) : Text → List Entity → Except PiiError Text
  | t, [] => .ok t
  | t, e :: rest =>
    match get_replacement e strategy with
    | .error err => .error err
    | .ok replacement =>
      redactLoop strategy (t.take e.start ++ replacement ++ t.drop e.stop) rest

/-- The rewrite stage of `redact_pii`: sort the detected entities in
descending `start` order (`reverse=True`, stable) and run the replacement
loop. -/
def redactStage (strategy : String) (text : Text) (entities : List Entity) :
    Except PiiError Text :=
  redactLoop strategy text (List.insertionSort startGE entities)

/-- `BilingualPIIDetector.redact_pii`: detect, rewrite back-to-front, and
return the rewritten text with the detected entities. -/
def Detector.redact_pii (d : Detector) (text : Text) (strategy : String) :
    Except PiiError (Text × List Entity) :=
  match d.detect_pii_entities text with
  | .error err => .error err
  | .ok entities =>
    match redactStage strategy text entities with
    | .error err => .error err
    | .ok redacted => .ok (redacted, entities)

/-- `BilingualPIIDetector.contains_pii`:
`len(self.detect_pii_entities(text)) > 0`. -/
def Detector.contains_pii (d : Detector) (text : Text) : Except PiiError Bool :=
  match d.detect_pii_entities text with
  | .error err => .error err
  | .ok entities => .ok (decide (0 < entities.length))

/-- The dictionary returned by `get_pii_summary`. -/
structure PiiSummary where
  has_confidential_info : Bool
  entities_found : Nat
  entity_types : List String
  safe_text : Text
  details : List Entity
  deriving DecidableEq, Repr

/-- `BilingualPIIDetector.get_pii_summary`: run detection, run
`redact_pii(text)` (default `redact` strategy, which detects again), and
assemble the report; `list(set(...))` of the labels is rendered as a
duplicate-free list of the labels. -/
def Detector.get_pii_summary (d : Detector) (text : Text) :
    Except PiiError PiiSummary :=
  match d.detect_pii_entities text with
  | .error err => .error err
  | .ok entities =>
    match d.redact_pii text "redact" with
    | .error err => .error err
    | .ok p =>
      .ok { has_confidential_info := decide (0 < entities.length),
            entities_found := entities.length,
            entity_types := (entities.map (fun e => e.label)).dedup,
            safe_text := p.1,
            details := entities }

/-- Interval disjointness as the complement of the code's overlap test. -/
abbrev noOverlap (a b : Entity) : Prop := overlapB a b = false

/-- The replacement text of a non-`block` strategy, as a pure function:
`redact` and unknown strategies give the marker, `mask` the partial
disclosure. `get_replacement` returns `.ok` of exactly this value whenever
the strategy is not `block`. -/
def pureReplacement (e : Entity) (strategy : String) : Text :=
  if strategy = "redact" then redactMarker e
  else if strategy = "mask" then maskText e
  else redactMarker e

/-- Specification-side characterization of redaction: the original text cut
at the (ascending, disjoint) entity spans, with every character outside the
spans kept verbatim and every span `[start, stop)` replaced by its strategy
replacement. `pos` is the position up to which the text has already been
emitted. -/
def segmentsRewrite (strategy : String) (t : Text) (pos : Nat) :
    List Entity → Text
  | [] => t.drop pos
  | e :: rest =>
    (t.drop pos).take (e.start - pos) ++ pureReplacement e strategy ++
      segmentsRewrite strategy t e.stop rest

/-- Specification-side reading of "the last `n` digits" of a string: the
trailing `n` digit characters, ignoring separators. -/
def lastDigits (n : Nat) (t : Text) : Text :=
  (t.filter Char.isDigit).drop ((t.filter Char.isDigit).length - n)

/-- A recognizer span over `[0,4)` of `'abcde'`. -/
def spanA : Span :=
  { text := "abcd".data, label := "PERSON", start := 0, stop := 4 }

/-- A recognizer span over `[1,5)` of `'abcde'`, overlapping `spanA`. -/
def spanB : Span :=
  { text := "bcde".data, label := "PERSON", start := 1, stop := 5 }

/-- A detector whose English recognizer returns two overlapping person
spans; the engine performs no cross-check between recognizer spans. -/
def overlapDetector : Detector :=
  { classify := fun _ => .ok "en",
    recog_en := fun _ => .ok [spanA, spanB],
    recog_fr := fun _ => .ok [],
    patternMatches := fun _ => [] }

/-- The entity produced from `spanA`. -/
def entA : Entity := mkSpacyEntity "en" spanA

/-- The entity produced from `spanB`. -/
def entB : Entity := mkSpacyEntity "en" spanB

/-- The recognizer span `'John Smith'` at `[8,18)` of `exampleText`. -/
def johnSpan : Span :=
  { text := "John Smith".data, label := "PERSON", start := 8, stop := 18 }

/-- A well-behaved concrete detector used to exercise the theorems. -/
def stdDetector : Detector :=
  { classify := fun _ => .ok "en",
    recog_en := fun _ => .ok [johnSpan],
    recog_fr := fun _ => .ok [],
    patternMatches := fun _ => [] }

/-- The running example input. -/
def exampleText : Text := "Contact John Smith now".data

/-- The entity detected in `exampleText` by `stdDetector`. -/
def johnEntity : Entity := mkSpacyEntity "en" johnSpan

/-- The summary `stdDetector.get_pii_summary exampleText` computes. -/
def exampleSummary : PiiSummary :=
  { has_confidential_info := true,
    entities_found := 1,
    entity_types := ["PERSON"],
    safe_text := "Contact [REDACTED_PERSON] now".data,
    details := [johnEntity] }

/-- A detector whose language classifier always fails. -/
def failDetector : Detector :=
  { classify := fun _ => .error (.detectionUnavailable "model offline"),
    recog_en := fun _ => .error (.detectionUnavailable "model offline"),
    recog_fr := fun _ => .error (.detectionUnavailable "model offline"),
    patternMatches := fun _ => [] }

/-- A detector whose classifier answers but whose English recognizer fails. -/
def recogFailDetector : Detector :=
  { classify := fun _ => .ok "en",
    recog_en := fun _ => .error (.detectionUnavailable "ner down"),
    recog_fr := fun _ => .ok [],
    patternMatches := fun _ => [] }

/-- A regex candidate clashing with the `John Smith` span. -/
def clashMatch : RegexMatch :=
  { name := "PHONE", text := "n Sm".data, start := 10, stop := 14 }

/-- A concrete EMAIL entity. -/
def emailEntity : Entity :=
  { text := "john@ex.com".data, label := "EMAIL", start := 0, stop := 11,
    source := "regex", language := "en" }

/-- The PHONE entity the phone pattern matches inside
`'My number is 555-123-4567'`. -/
def phoneEntity : Entity :=
  { text := "555-123-4567".data, label := "PHONE", start := 13, stop := 25,
    source := "regex", language := "english" }

/-- The PHONE entity the phone pattern matches inside `'ab 12-34'`: five
characters, so the mask keeps `text[-4:] = '2-34'`, which contains a
separator. -/
def shortPhoneEntity : Entity :=
  { text := "12-34".data, label := "PHONE", start := 3, stop := 8,
    source := "regex", language := "english" }

theorem overlapB_symm (a b : Entity) : overlapB a b = overlapB b a := by
  unfold overlapB
  rw [Bool.or_comm]

theorem overlapB_eq_false_iff (a b : Entity) :
    overlapB a b = false ↔ (a.stop ≤ b.start ∨ b.stop ≤ a.start) := by
  unfold overlapB
  simp only [Bool.not_eq_false', Bool.or_eq_true, decide_eq_true_eq]

theorem noOverlap_symmetric : Symmetric noOverlap := by
  intro a b h
  unfold noOverlap at h ⊢
  rw [overlapB_symm]
  exact h

theorem aggregate_eq_append : ∀ (cands accepted : List Entity),
    ∃ extra, aggregate accepted cands = accepted ++ extra
  | [], accepted => ⟨[], by simp [aggregate]⟩
  | c :: cs, accepted => by
    obtain ⟨x, hx⟩ := aggregate_eq_append cs (addCandidate accepted c)
    have hstep : aggregate accepted (c :: cs) = aggregate (addCandidate accepted c) cs := rfl
    rw [hstep, hx]
    by_cases h : accepted.any (fun e => overlapB c e)
    · exact ⟨x, by simp [addCandidate, h]⟩
    · exact ⟨c :: x, by simp [addCandidate, h]⟩

theorem mem_aggregate_of_mem {e : Entity} {accepted : List Entity}
    (cands : List Entity) (h : e ∈ accepted) : e ∈ aggregate accepted cands := by
  obtain ⟨extra, hx⟩ := aggregate_eq_append cands accepted
  rw [hx]
  exact List.mem_append_left _ h

theorem aggregate_rejects : ∀ (cands accepted : List Entity) (x e : Entity),
    e ∈ accepted → overlapB x e = true → x ∉ accepted →
    x ∉ aggregate accepted cands
  | [], _, x, _, _, _, hx => by simpa [aggregate] using hx
  | c :: cs, accepted, x, e, he, hov, hx => by
    have hstep : aggregate accepted (c :: cs) = aggregate (addCandidate accepted c) cs := rfl
    rw [hstep]
    by_cases hany : accepted.any (fun e2 => overlapB c e2)
    · have heq : addCandidate accepted c = accepted := by simp [addCandidate, hany]
      rw [heq]
      exact aggregate_rejects cs accepted x e he hov hx
    · have heq : addCandidate accepted c = accepted ++ [c] := by simp [addCandidate, hany]
      rw [heq]
      refine aggregate_rejects cs (accepted ++ [c]) x e (List.mem_append_left _ he) hov ?_
      intro hmem
      rcases List.mem_append.mp hmem with h1 | h1
      · exact hx h1
      · have hcx : c = x := (List.mem_singleton.mp h1).symm
        subst hcx
        have : accepted.any (fun e2 => overlapB c e2) = true :=
          List.any_eq_true.mpr ⟨e, he, hov⟩
        exact hany this

theorem aggregate_pairwise : ∀ (cands accepted : List Entity),
    List.Pairwise noOverlap accepted →
    List.Pairwise noOverlap (aggregate accepted cands)
  | [], _, h => h
  | c :: cs, accepted, h => by
    have hstep : aggregate accepted (c :: cs) = aggregate (addCandidate accepted c) cs := rfl
    rw [hstep]
    refine aggregate_pairwise cs (addCandidate accepted c) ?_
    by_cases hany : accepted.any (fun e2 => overlapB c e2)
    · simpa [addCandidate, hany] using h
    · have heq : addCandidate accepted c = accepted ++ [c] := by simp [addCandidate, hany]
      rw [heq, List.pairwise_append]
      refine ⟨h, List.pairwise_singleton _ _, ?_⟩
      intro a ha b hb
      have hb' : b = c := List.mem_singleton.mp hb
      have hall : ∀ x ∈ accepted, ¬ (overlapB c x = true) := by
        intro x hxm hx
        exact hany (List.any_eq_true.mpr ⟨x, hxm, hx⟩)
      have hfalse : overlapB c a = false := by
        cases hoc : overlapB c a
        · rfl
        · exact absurd hoc (hall a ha)
      show overlapB a b = false
      rw [hb', overlapB_symm]
      exact hfalse

theorem dedupAux_sublist : ∀ (l : List Entity) (seen : List (Text × Nat × Nat)),
    List.Sublist (dedupAux seen l) l
  | [], _ => List.Sublist.refl []
  | e :: rest, seen => by
    unfold dedupAux
    by_cases h : tripleKey e ∈ seen
    · simp only [h, if_true]
      exact (dedupAux_sublist rest seen).cons e
    · simp only [h, if_false]
      exact (dedupAux_sublist rest (tripleKey e :: seen)).cons₂ e

theorem mem_dedupAux_key : ∀ (l : List Entity) (seen : List (Text × Nat × Nat))
    (e : Entity), e ∈ dedupAux seen l → tripleKey e ∉ seen
  | [], _, e => by simp [dedupAux]
  | a :: rest, seen, e => by
    unfold dedupAux
    by_cases h : tripleKey a ∈ seen
    · simp only [h, if_true]
      exact mem_dedupAux_key rest seen e
    · simp only [h, if_false]
      intro hmem hseen
      rcases List.mem_cons.mp hmem with h1 | h1
      · subst h1
        exact h hseen
      · exact mem_dedupAux_key rest (tripleKey a :: seen) e h1
          (List.mem_cons_of_mem _ hseen)

theorem dedupAux_pairwise : ∀ (l : List Entity) (seen : List (Text × Nat × Nat)),
    List.Pairwise (fun a b => tripleKey a ≠ tripleKey b) (dedupAux seen l)
  | [], _ => List.Pairwise.nil
  | a :: rest, seen => by
    unfold dedupAux
    by_cases h : tripleKey a ∈ seen
    · simp only [h, if_true]
      exact dedupAux_pairwise rest seen
    · simp only [h, if_false]
      refine List.Pairwise.cons ?_ (dedupAux_pairwise rest (tripleKey a :: seen))
      intro b hb hkey
      exact mem_dedupAux_key rest (tripleKey a :: seen) b hb
        (by rw [← hkey]; exact List.mem_cons_self _ _)

theorem mem_dedupAux_of_front : ∀ (l₁ : List Entity) (e : Entity) (l₂ : List Entity)
    (seen : List (Text × Nat × Nat)),
    (∀ a ∈ l₁, tripleKey a = tripleKey e → a = e) → tripleKey e ∉ seen →
    e ∈ dedupAux seen (l₁ ++ e :: l₂)
  | [], e, l₂, seen, _, hseen => by
    simp only [List.nil_append]
    unfold dedupAux
    simp only [hseen, if_false]
    exact List.mem_cons_self _ _
  | a :: m, e, l₂, seen, hfront, hseen => by
    simp only [List.cons_append]
    unfold dedupAux
    by_cases h : tripleKey a ∈ seen
    · simp only [h, if_true]
      exact mem_dedupAux_of_front m e l₂ seen
        (fun x hx => hfront x (List.mem_cons_of_mem _ hx)) hseen
    · simp only [h, if_false]
      by_cases hae : a = e
      · subst hae
        exact List.mem_cons_self _ _
      · have hkey : tripleKey a ≠ tripleKey e := fun hk =>
          hae (hfront a (List.mem_cons_self _ _) hk)
        refine List.mem_cons_of_mem a ?_
        refine mem_dedupAux_of_front m e l₂ (tripleKey a :: seen)
          (fun x hx => hfront x (List.mem_cons_of_mem _ hx)) ?_
        intro hc
        rcases List.mem_cons.mp hc with h1 | h1
        · exact hkey h1.symm
        · exact hseen h1

theorem orderedInsert_of_forall_not {α : Type} {r : α → α → Prop} [DecidableRel r]
    (a : α) : ∀ (m : List α), (∀ b ∈ m, ¬ r a b) →
    List.orderedInsert r a m = m ++ [a]
  | [], _ => rfl
  | b :: m, h => by
    have hb : ¬ r a b := h b (List.mem_cons_self _ _)
    simp only [List.orderedInsert, if_neg hb]
    rw [orderedInsert_of_forall_not a m (fun x hx => h x (List.mem_cons_of_mem _ hx))]
    rfl

theorem insertionSort_desc_eq_reverse : ∀ (es : List Entity),
    List.Pairwise (fun a b => a.start < b.start) es →
    List.insertionSort startGE es = es.reverse
  | [], _ => rfl
  | a :: l, h => by
    have hlt : ∀ b ∈ l, a.start < b.start := (List.pairwise_cons.mp h).1
    have ih := insertionSort_desc_eq_reverse l (List.pairwise_cons.mp h).2
    show List.orderedInsert startGE a (List.insertionSort startGE l) = (a :: l).reverse
    rw [ih, orderedInsert_of_forall_not a l.reverse ?hnot]
    · simp
    case hnot =>
      intro b hb
      have hbl : b ∈ l := List.mem_reverse.mp hb
      exact Nat.not_le.mpr (hlt b hbl)

theorem detect_ok_cases (d : Detector) (text : Text) (es : List Entity)
    (h : d.detect_pii_entities text = .ok es) :
    (text.all isSpaceChar = true ∧ es = []) ∨
    (text.all isSpaceChar = false ∧ ∃ language spans,
      d.classify text = .ok language ∧
      (if language = "en" then d.recog_en text else d.recog_fr text) = .ok spans ∧
      es = detectCore language spans (d.patternMatches text)) := by
  unfold Detector.detect_pii_entities at h
  by_cases hw : text.all isSpaceChar = true
  · left
    rw [if_pos hw] at h
    injection h with h2
    exact ⟨hw, h2.symm⟩
  · right
    rw [if_neg hw] at h
    refine ⟨Bool.not_eq_true _ ▸ hw, ?_⟩
    cases hcl : d.classify text with
    | error err => rw [hcl] at h; cases h
    | ok language =>
      rw [hcl] at h
      dsimp only at h
      cases hrec : (if language = "en" then d.recog_en text else d.recog_fr text) with
      | error err => rw [hrec] at h; cases h
      | ok spans =>
        rw [hrec] at h
        dsimp only at h
        injection h with h2
        exact ⟨language, spans, rfl, hrec, h2.symm⟩

theorem get_replacement_block (e : Entity) :
    get_replacement e "block" = .error (.blocked e.label e.text) := rfl

theorem get_replacement_not_block (e : Entity) (strategy : String)
    (h : strategy ≠ "block") :
    get_replacement e strategy = .ok (pureReplacement e strategy) := by
  unfold get_replacement pureReplacement
  by_cases h1 : strategy = "redact"
  · simp [h1]
  · by_cases h2 : strategy = "mask"
    · simp [h1, h2]
    · simp [h1, h2, h]

theorem redactLoop_nil (strategy : String) (t : Text) :
    redactLoop strategy t [] = .ok t := rfl

theorem redactLoop_cons (strategy : String) (t : Text) (e : Entity)
    (rest : List Entity) :
    redactLoop strategy t (e :: rest) =
      match get_replacement e strategy with
      | .error err => .error err
      | .ok replacement =>
        redactLoop strategy (t.take e.start ++ replacement ++ t.drop e.stop) rest := rfl

theorem segmentsRewrite_nil (strategy : String) (t : Text) (pos : Nat) :
    segmentsRewrite strategy t pos [] = t.drop pos := rfl

theorem segmentsRewrite_cons (strategy : String) (t : Text) (pos : Nat)
    (e : Entity) (rest : List Entity) :
    segmentsRewrite strategy t pos (e :: rest) =
      (t.drop pos).take (e.start - pos) ++ pureReplacement e strategy ++
        segmentsRewrite strategy t e.stop rest := rfl

theorem redactLoop_append (strategy : String) : ∀ (l₁ l₂ : List Entity) (t : Text),
    redactLoop strategy t (l₁ ++ l₂) =
      match redactLoop strategy t l₁ with
      | .error err => .error err
      | .ok t2 => redactLoop strategy t2 l₂
  | [], _, _ => rfl
  | e :: l₁, l₂, t => by
    rw [List.cons_append, redactLoop_cons, redactLoop_cons]
    cases get_replacement e strategy with
    | error err => rfl
    | ok replacement =>
      exact redactLoop_append strategy l₁ l₂
        (t.take e.start ++ replacement ++ t.drop e.stop)

theorem redactLoop_single (strategy : String) (hs : strategy ≠ "block")
    (t : Text) (e : Entity) :
    redactLoop strategy t [e] =
      .ok (t.take e.start ++ pureReplacement e strategy ++ t.drop e.stop) := by
  rw [redactLoop_cons, get_replacement_not_block e strategy hs]
  rfl

theorem redactLoop_reverse (strategy : String) (hs : strategy ≠ "block") :
    ∀ (es : List Entity) (t : Text) (pos : Nat),
      List.Pairwise (fun a b => a.stop ≤ b.start) es →
      (∀ e ∈ es, e.start < e.stop ∧ e.stop ≤ t.length) →
      (∀ e ∈ es, pos ≤ e.start) →
      redactLoop strategy t es.reverse =
        .ok (t.take pos ++ segmentsRewrite strategy t pos es)
  | [], t, pos, _, _, _ => by
    show Except.ok t = .ok (t.take pos ++ t.drop pos)
    rw [List.take_append_drop]
  | e :: l, t, pos, hpw, hvalid, hpos => by
    have hsep := List.pairwise_cons.mp hpw
    have hestart : e.start < e.stop := (hvalid e (List.mem_cons_self _ _)).1
    have hestop : e.stop ≤ t.length := (hvalid e (List.mem_cons_self _ _)).2
    have ih := redactLoop_reverse strategy hs l t e.stop hsep.2
      (fun x hx => hvalid x (List.mem_cons_of_mem _ hx))
      (fun x hx => hsep.1 x hx)
    rw [List.reverse_cons, redactLoop_append, ih]
    dsimp only
    have hlen : (t.take e.stop).length = e.stop := List.length_take_of_le hestop
    rw [redactLoop_single strategy hs]
    have htake : (t.take e.stop ++ segmentsRewrite strategy t e.stop l).take e.start
        = t.take e.start := by
      rw [List.take_append_eq_append_take, hlen,
        Nat.sub_eq_zero_of_le (Nat.le_of_lt hestart), List.take_zero,
        List.append_nil, List.take_take, Nat.min_eq_left (Nat.le_of_lt hestart)]
    have hdrop : (t.take e.stop ++ segmentsRewrite strategy t e.stop l).drop e.stop
        = segmentsRewrite strategy t e.stop l := List.drop_left' hlen
    rw [htake, hdrop, segmentsRewrite_cons]
    have hsplit : t.take e.start = t.take pos ++ (t.drop pos).take (e.start - pos) := by
      rw [← List.take_add, Nat.add_sub_cancel' (hpos e (List.mem_cons_self _ _))]
    rw [hsplit]
    simp [List.append_assoc]

theorem mem_spacyFilter (language sens : String) (spans : List Span) (e : Entity) :
    e ∈ spacyFilter language sens spans ↔
      ∃ s ∈ spans, spacyKeep sens s = true ∧ e = mkSpacyEntity language s := by
  unfold spacyFilter
  simp only [List.mem_map, List.mem_filter]
  constructor
  · rintro ⟨s, ⟨hs, hk⟩, he⟩
    exact ⟨s, hs, hk, he.symm⟩
  · rintro ⟨s, hs, hk, he⟩
    exact ⟨s, ⟨hs, hk⟩, he.symm⟩

theorem spacyKeep_eq_true (sens : String) (s : Span) :
    spacyKeep sens s = true ↔
      s.label = sens ∧ 2 < (pyStrip s.text).length ∧ pyIsSpace s.text = false := by
  unfold spacyKeep
  simp only [Bool.and_eq_true, beq_iff_eq, decide_eq_true_eq, Bool.not_eq_true',
    and_assoc]

theorem spacyFilter_fields (language sens : String) (spans : List Span) :
    ∀ e ∈ spacyFilter language sens spans,
      e.label = sens ∧ e.source = "spacy" ∧ e.language = language := by
  intro e he
  rw [mem_spacyFilter] at he
  obtain ⟨s, _, hkeep, rfl⟩ := he
  exact ⟨((spacyKeep_eq_true sens s).mp hkeep).1, rfl, rfl⟩

theorem spacyFilter_key_inj (language sens : String) (spans : List Span) :
    ∀ a ∈ spacyFilter language sens spans, ∀ b ∈ spacyFilter language sens spans,
      tripleKey a = tripleKey b → a = b := by
  intro a ha b hb hk
  obtain ⟨hla, hsa, hlga⟩ := spacyFilter_fields language sens spans a ha
  obtain ⟨hlb, hsb, hlgb⟩ := spacyFilter_fields language sens spans b hb
  unfold tripleKey at hk
  cases a with
  | mk ta la sa pa srca lga =>
    cases b with
    | mk tb lb sb pb srcb lgb =>
      simp only [Prod.mk.injEq] at hk
      simp only [Entity.mk.injEq]
      simp_all

theorem detectCore_sorted (language : String) (spans : List Span)
    (pats : List RegexMatch) :
    List.Pairwise startLE (detectCore language spans pats) :=
  List.sorted_insertionSort startLE _

theorem detectCore_distinct_keys (language : String) (spans : List Span)
    (pats : List RegexMatch) :
    List.Pairwise (fun a b => tripleKey a ≠ tripleKey b)
      (detectCore language spans pats) := by
  unfold detectCore dedupEntities
  have hperm := List.perm_insertionSort startLE
    (dedupAux [] (aggregate (spacyFilter language (sensLabelOf language) spans)
      (pats.map (mkRegexEntity language))))
  exact (hperm.pairwise_iff (fun h => Ne.symm h)).mpr (dedupAux_pairwise _ [])

theorem detectCore_disjoint (language : String) (spans : List Span)
    (pats : List RegexMatch)
    (h : List.Pairwise noOverlap (spacyFilter language (sensLabelOf language) spans)) :
    List.Pairwise noOverlap (detectCore language spans pats) := by
  unfold detectCore dedupEntities
  have hagg := aggregate_pairwise (pats.map (mkRegexEntity language)) _ h
  have hded := List.Pairwise.sublist (dedupAux_sublist (aggregate _ _) []) hagg
  have hperm := List.perm_insertionSort startLE
    (dedupAux [] (aggregate (spacyFilter language (sensLabelOf language) spans)
      (pats.map (mkRegexEntity language))))
  exact (hperm.pairwise_iff (fun hxy => noOverlap_symmetric hxy)).mpr hded

/-- C1 (amended): the list returned by `detect_pii_entities` is always
sorted ascending by `start` and free of duplicate `(text, start, end)`
triples; its intervals are pairwise disjoint provided the filtered
recognizer spans are pairwise disjoint (the code checks regex candidates
against accepted entities but never checks recognizer spans against each
other, so disjointness cannot be unconditional). -/
theorem c1_detect_invariants (d : Detector) (text : Text) (es : List Entity)
    (h : d.detect_pii_entities text = .ok es) :
    List.Pairwise startLE es ∧
    List.Pairwise (fun a b => tripleKey a ≠ tripleKey b) es ∧
    (∀ language spans,
      d.classify text = .ok language →
      (if language = "en" then d.recog_en text else d.recog_fr text) = .ok spans →
      List.Pairwise noOverlap (spacyFilter language (sensLabelOf language) spans) →
      List.Pairwise noOverlap es) := by
  rcases detect_ok_cases d text es h with ⟨hw, rfl⟩ |
    ⟨hw, language, spans, hcl, hrec, rfl⟩
  · exact ⟨.nil, .nil, fun _ _ _ _ _ => .nil⟩
  · refine ⟨detectCore_sorted language spans _,
      detectCore_distinct_keys language spans _, ?_⟩
    intro language2 spans2 hcl2 hrec2 hdisj
    rw [hcl] at hcl2
    injection hcl2 with hl
    subst hl
    rw [hrec] at hrec2
    injection hrec2 with hsp
    subst hsp
    exact detectCore_disjoint language spans _ hdisj

/-- C1 counterexample: with a recognizer that returns the two overlapping
person spans `[0,4)` and `[1,5)` of `'abcde'`, `detect_pii_entities`
returns both entities, so the output intervals are not pairwise
disjoint — the claim's unconditional disjointness fails. -/
theorem c1_counterexample :
    overlapDetector.detect_pii_entities ("abcde".data) = .ok [entA, entB] ∧
    overlapB entA entB = true :=
  ⟨rfl, by decide⟩

theorem c1_witness :
    List.Pairwise startLE [johnEntity] ∧
    List.Pairwise (fun a b => tripleKey a ≠ tripleKey b) [johnEntity] :=
  ⟨(c1_detect_invariants stdDetector exampleText [johnEntity] rfl).1,
   (c1_detect_invariants stdDetector exampleText [johnEntity] rfl).2.1⟩

/-- C2: the aggregation iterates the regex candidates in order, testing each
against the currently accepted list seeded with the recognizer's filtered
output; accepted entities are never removed, so every filtered recognizer
entity appears in the final output, and every regex candidate that overlaps
a filtered recognizer entity is omitted from it. -/
theorem c2_aggregation (language : String) (spans : List Span)
    (pats : List RegexMatch) :
    (∀ e ∈ spacyFilter language (sensLabelOf language) spans,
        e ∈ detectCore language spans pats) ∧
    (∀ m ∈ pats,
      (∃ e ∈ spacyFilter language (sensLabelOf language) spans,
          overlapB (mkRegexEntity language m) e = true) →
      mkRegexEntity language m ∉ detectCore language spans pats) := by
  constructor
  · intro e he
    obtain ⟨extra, hagg⟩ :=
      aggregate_eq_append (pats.map (mkRegexEntity language))
        (spacyFilter language (sensLabelOf language) spans)
    obtain ⟨p, q, hpq⟩ := List.append_of_mem he
    have hdec : aggregate (spacyFilter language (sensLabelOf language) spans)
        (pats.map (mkRegexEntity language)) = p ++ e :: (q ++ extra) := by
      rw [hagg, hpq]
      simp
    have hmem : e ∈ dedupEntities (aggregate
        (spacyFilter language (sensLabelOf language) spans)
        (pats.map (mkRegexEntity language))) := by
      unfold dedupEntities
      rw [hdec]
      refine mem_dedupAux_of_front p e (q ++ extra) [] ?_ (by simp)
      intro a ha hk
      refine spacyFilter_key_inj language (sensLabelOf language) spans a ?_ e he hk
      rw [hpq]
      exact List.mem_append_left _ ha
    unfold detectCore
    exact (List.perm_insertionSort startLE _).mem_iff.mpr hmem
  · rintro m hm ⟨e, he, hov⟩ hmem
    have hnotin : mkRegexEntity language m ∉
        spacyFilter language (sensLabelOf language) spans := by
      intro hin
      have hsrc := (spacyFilter_fields _ _ _ _ hin).2.1
      simp [mkRegexEntity] at hsrc
    have hrej := aggregate_rejects (pats.map (mkRegexEntity language))
      (spacyFilter language (sensLabelOf language) spans)
      (mkRegexEntity language m) e he hov hnotin
    have h1 : mkRegexEntity language m ∈ dedupEntities (aggregate
        (spacyFilter language (sensLabelOf language) spans)
        (pats.map (mkRegexEntity language))) := by
      unfold detectCore at hmem
      exact (List.perm_insertionSort startLE _).mem_iff.mp hmem
    exact hrej (List.Sublist.subset (dedupAux_sublist _ []) h1)

theorem c2_witness :
    johnEntity ∈ detectCore "en" [johnSpan] [clashMatch] ∧
    mkRegexEntity "en" clashMatch ∉ detectCore "en" [johnSpan] [clashMatch] :=
  ⟨(c2_aggregation "en" [johnSpan] [clashMatch]).1 johnEntity (by decide),
   (c2_aggregation "en" [johnSpan] [clashMatch]).2 clashMatch (by decide)
     ⟨johnEntity, by decide, by decide⟩⟩

/-- C3: on a sorted, pairwise-disjoint entity list with valid offsets, the
rewrite stage of `redact_pii` (descending-`start` processing of the spans)
returns exactly the original text with each `[start, stop)` span replaced by
its strategy replacement and every character outside the spans unchanged —
this is the content of `segmentsRewrite`. The embedding is purely
functional, so the input text value is never mutated. The `block` strategy
aborts instead of replacing and is treated in C4. -/
theorem c3_redaction (strategy : String) (t : Text) (es : List Entity)
    (hs : strategy ≠ "block")
    (hsorted : List.Pairwise startLE es)
    (hdisj : List.Pairwise noOverlap es)
    (hvalid : ∀ e ∈ es, e.start < e.stop ∧ e.stop ≤ t.length) :
    redactStage strategy t es = .ok (segmentsRewrite strategy t 0 es) := by
  have hsep : List.Pairwise (fun a b => a.stop ≤ b.start) es := by
    have hcomb := hsorted.and hdisj
    refine hcomb.imp_of_mem ?_
    intro a b ha hb hab
    rcases (overlapB_eq_false_iff a b).mp hab.2 with h | h
    · exact h
    · exfalso
      have h1 := (hvalid b hb).1
      have h2 := hab.1
      omega
  have hstrict : List.Pairwise (fun a b => a.start < b.start) es := by
    refine hsep.imp_of_mem ?_
    intro a b ha hb hab
    have h1 := (hvalid a ha).1
    omega
  unfold redactStage
  rw [insertionSort_desc_eq_reverse es hstrict]
  rw [redactLoop_reverse strategy hs es t 0 hsep hvalid (fun e _ => Nat.zero_le _)]
  simp

theorem c3_witness :
    (("redact" : String) ≠ "block") ∧
    redactStage "redact" exampleText [johnEntity] =
      .ok (segmentsRewrite "redact" exampleText 0 [johnEntity]) :=
  ⟨by decide, c3_redaction "redact" exampleText [johnEntity] (by decide)
    (List.pairwise_singleton _ _) (List.pairwise_singleton _ _) (by decide)⟩

/-- C5: on empty or all-whitespace input the guard
`if not text or not text.strip()` fires, so `detect_pii_entities` returns
the empty list and `contains_pii` returns false for every detector — in
particular for one whose classifier and recognizers always fail, which
shows neither is invoked. -/
theorem c5_empty_shortcircuit (d : Detector) (text : Text)
    (h : text.all isSpaceChar = true) :
    d.detect_pii_entities text = .ok [] ∧ d.contains_pii text = .ok false := by
  have hdet : d.detect_pii_entities text = .ok [] := by
    unfold Detector.detect_pii_entities
    rw [if_pos h]
  refine ⟨hdet, ?_⟩
  unfold Detector.contains_pii
  rw [hdet]
  rfl

theorem c5_witness :
    (("".data : Text).all isSpaceChar = true) ∧
    failDetector.detect_pii_entities ("".data) = .ok [] ∧
    failDetector.contains_pii ("".data) = .ok false :=
  ⟨by decide, (c5_empty_shortcircuit failDetector ("".data) (by decide)).1,
   (c5_empty_shortcircuit failDetector ("".data) (by decide)).2⟩

/-- C4: under the `block` strategy, if detection found at least one entity
then `redact_pii` fails with the `ValueError` built from the label and text
of an entity of maximal `start` (the first one processed, since the spans
are sorted in descending `start` order), and the error carries no partially
rewritten text; on a text with no detected entities it returns the text
unchanged with an empty entity list. -/
theorem c4_block (d : Detector) (text : Text) (es : List Entity)
    (h : d.detect_pii_entities text = .ok es) :
    (es ≠ [] → ∃ e, e ∈ es ∧ (∀ x ∈ es, x.start ≤ e.start) ∧
      d.redact_pii text "block" = .error (.blocked e.label e.text)) ∧
    (es = [] → d.redact_pii text "block" = .ok (text, [])) := by
  constructor
  · intro hne
    have hperm := List.perm_insertionSort startGE es
    cases hsort : List.insertionSort startGE es with
    | nil =>
      exfalso
      have hlen := hperm.length_eq
      rw [hsort] at hlen
      simp only [List.length_nil] at hlen
      exact hne (List.length_eq_zero.mp hlen.symm)
    | cons e rest =>
      refine ⟨e, ?_, ?_, ?_⟩
      · have he : e ∈ List.insertionSort startGE es := by
          rw [hsort]
          exact List.mem_cons_self _ _
        exact hperm.mem_iff.mp he
      · intro x hx
        have hxs : x ∈ List.insertionSort startGE es := hperm.mem_iff.mpr hx
        rw [hsort] at hxs
        have hsorted : List.Pairwise startGE (e :: rest) := by
          rw [← hsort]
          exact List.sorted_insertionSort startGE es
        rcases List.mem_cons.mp hxs with h1 | h1
        · subst h1
          exact Nat.le_refl _
        · exact (List.pairwise_cons.mp hsorted).1 x h1
      · have hstage : redactStage "block" text es = .error (.blocked e.label e.text) := by
          unfold redactStage
          rw [hsort, redactLoop_cons, get_replacement_block]
        unfold Detector.redact_pii
        rw [h]
        dsimp only
        rw [hstage]
  · intro he
    subst he
    unfold Detector.redact_pii
    rw [h]
    dsimp only
    unfold redactStage
    rfl

theorem c4_witness :
    stdDetector.redact_pii exampleText "block" =
      .error (.blocked "PERSON" ("John Smith".data)) := by
  obtain ⟨e, he, hmax, herr⟩ :=
    (c4_block stdDetector exampleText [johnEntity] rfl).1 (by decide)
  have heq : e = johnEntity := List.mem_singleton.mp he
  rw [heq] at herr
  exact herr

theorem takeWhile_append_stop : ∀ (l r : Text), '@' ∉ l →
    (l ++ '@' :: r).takeWhile (fun c => c != '@') = l
  | [], _, _ => by simp
  | a :: l, r, h => by
    have ha : a ≠ '@' := fun he => h (he ▸ List.mem_cons_self _ _)
    have hab : (a != '@') = true := bne_iff_ne.mpr ha
    simp only [List.cons_append, List.takeWhile_cons, hab, if_true]
    rw [takeWhile_append_stop l r (fun hm => h (List.mem_cons_of_mem _ hm))]

theorem dropWhile_append_stop : ∀ (l r : Text), '@' ∉ l →
    (l ++ '@' :: r).dropWhile (fun c => c != '@') = '@' :: r
  | [], _, _ => by simp
  | a :: l, r, h => by
    have ha : a ≠ '@' := fun he => h (he ▸ List.mem_cons_self _ _)
    have hab : (a != '@') = true := bne_iff_ne.mpr ha
    simp only [List.cons_append, List.dropWhile_cons, hab, if_true]
    exact dropWhile_append_stop l r (fun hm => h (List.mem_cons_of_mem _ hm))

theorem takeWhile_all_of_not_mem : ∀ (r : Text), '@' ∉ r →
    r.takeWhile (fun c => c != '@') = r
  | [], _ => rfl
  | a :: l, h => by
    have ha : a ≠ '@' := fun he => h (he ▸ List.mem_cons_self _ _)
    have hab : (a != '@') = true := bne_iff_ne.mpr ha
    simp only [List.takeWhile_cons, hab, if_true]
    rw [takeWhile_all_of_not_mem l (fun hm => h (List.mem_cons_of_mem _ hm))]

/-- C6 (amended): under `mask`, an EMAIL entity of the email shape
`local ++ '@' ++ domain` is replaced by the first two characters of the
local part, `'***@'`, and the domain; a PHONE entity (which never contains
`'@'`) is replaced by `'***-***-'` followed by the last four CHARACTERS of
the match when it is longer than 4 characters — the code keeps
`text[-4:]`, not the last four digits — and by `'***'` otherwise; any other
label is replaced by `'***<LABEL>***'`. Masking
`'My number is 555-123-4567'` yields `'My number is ***-***-4567'`. -/
theorem c6_mask (e : Entity) :
    (∀ (lp dp : Text), e.label = "EMAIL" →
      e.text = lp ++ '@' :: dp → '@' ∉ lp → '@' ∉ dp →
      get_replacement e "mask" = .ok (lp.take 2 ++ "***@".data ++ dp)) ∧
    ('@' ∉ e.text → e.label = "PHONE" →
      (4 < e.text.length →
        get_replacement e "mask" =
          .ok ("***-***-".data ++ e.text.drop (e.text.length - 4))) ∧
      (e.text.length ≤ 4 → get_replacement e "mask" = .ok ("***".data))) ∧
    (e.label ≠ "EMAIL" → e.label ≠ "PHONE" →
      get_replacement e "mask" = .ok ("***".data ++ e.label.data ++ "***".data)) ∧
    redactStage "mask" ("My number is 555-123-4567".data) [phoneEntity] =
      .ok ("My number is ***-***-4567".data) := by
  have hget : get_replacement e "mask" = .ok (maskText e) := rfl
  refine ⟨?_, ?_, ?_, rfl⟩
  · intro lp dp hlabel htext hlp hdp
    rw [hget]
    unfold maskText
    rw [htext, hlabel]
    rw [if_pos (Or.inl rfl)]
    rw [if_pos (List.mem_append_right _ (List.mem_cons_self _ _))]
    rw [takeWhile_append_stop lp dp hlp, dropWhile_append_stop lp dp hlp]
    rw [List.drop_one, List.tail_cons, takeWhile_all_of_not_mem dp hdp]
  · intro hat hlabel
    constructor
    · intro hlen
      rw [hget]
      unfold maskText
      rw [hlabel]
      rw [if_pos (Or.inr rfl)]
      rw [if_neg hat, if_pos hlen]
    · intro hlen
      rw [hget]
      unfold maskText
      rw [hlabel]
      rw [if_pos (Or.inr rfl)]
      rw [if_neg hat, if_neg (Nat.not_lt.mpr hlen)]
  · intro h1 h2
    rw [hget]
    unfold maskText
    rw [if_neg ?hne]
    case hne =>
      rintro (h | h)
      · exact h1 h
      · exact h2 h

/-- C6 counterexample: the PHONE pattern matches `'12-34'` (inside
`'ab 12-34'`); it is 5 characters long, and the mask keeps the last four
characters `'2-34'` — including the separator — not the last four digits
`'1234'` that the claim announces. -/
theorem c6_counterexample :
    4 < shortPhoneEntity.text.length ∧
    get_replacement shortPhoneEntity "mask" = .ok (maskText shortPhoneEntity) ∧
    maskText shortPhoneEntity = "***-***-2-34".data ∧
    maskText shortPhoneEntity ≠
      "***-***-".data ++ lastDigits 4 shortPhoneEntity.text :=
  ⟨by decide, rfl, by decide, by decide⟩

theorem c6_witness :
    get_replacement emailEntity "mask" =
      .ok (("john".data).take 2 ++ "***@".data ++ "ex.com".data) ∧
    get_replacement phoneEntity "mask" =
      .ok ("***-***-".data ++ phoneEntity.text.drop (phoneEntity.text.length - 4)) :=
  ⟨(c6_mask emailEntity).1 ("john".data) ("ex.com".data) rfl (by decide)
      (by decide) (by decide),
   ((c6_mask phoneEntity).2.1 (by decide) rfl).1 (by decide)⟩

/-- C7: on non-empty, non-whitespace text, a failure of the language
classifier, or of the recognizer selected for the classified language,
propagates out of `detect_pii_entities` unchanged; and once detection
fails, `redact_pii` (for every strategy), `contains_pii` and
`get_pii_summary` all fail with the same error — none of them substitutes
an empty or partial entity list. -/
theorem c7_failure_propagation (d : Detector) (text : Text) (err : PiiError)
    (h : text.all isSpaceChar = false) :
    (d.classify text = .error err → d.detect_pii_entities text = .error err) ∧
    (∀ language, d.classify text = .ok language →
      (if language = "en" then d.recog_en text else d.recog_fr text) = .error err →
      d.detect_pii_entities text = .error err) ∧
    (d.detect_pii_entities text = .error err →
      (∀ strategy, d.redact_pii text strategy = .error err) ∧
      d.contains_pii text = .error err ∧
      d.get_pii_summary text = .error err) := by
  refine ⟨?_, ?_, ?_⟩
  · intro hcl
    unfold Detector.detect_pii_entities
    rw [if_neg (by simp [h]), hcl]
  · intro language hcl hrec
    unfold Detector.detect_pii_entities
    rw [if_neg (by simp [h]), hcl]
    dsimp only
    rw [hrec]
  · intro hdet
    refine ⟨?_, ?_, ?_⟩
    · intro strategy
      unfold Detector.redact_pii
      rw [hdet]
    · unfold Detector.contains_pii
      rw [hdet]
    · unfold Detector.get_pii_summary
      rw [hdet]

theorem c7_witness :
    failDetector.detect_pii_entities ("hello".data) =
      .error (.detectionUnavailable "model offline") ∧
    recogFailDetector.detect_pii_entities ("hello".data) =
      .error (.detectionUnavailable "ner down") ∧
    failDetector.redact_pii ("hello".data) "redact" =
      .error (.detectionUnavailable "model offline") ∧
    failDetector.contains_pii ("hello".data) =
      .error (.detectionUnavailable "model offline") ∧
    failDetector.get_pii_summary ("hello".data) =
      .error (.detectionUnavailable "model offline") := by
  have h1 := (c7_failure_propagation failDetector ("hello".data)
    (.detectionUnavailable "model offline") (by decide)).1 rfl
  have h2 := (c7_failure_propagation recogFailDetector ("hello".data)
    (.detectionUnavailable "ner down") (by decide)).2.1 "en" rfl rfl
  have h3 := (c7_failure_propagation failDetector ("hello".data)
    (.detectionUnavailable "model offline") (by decide)).2.2 h1
  exact ⟨h1, h2, h3.1 "redact", h3.2.1, h3.2.2⟩

/-- C8: after classification, exactly the code `'en'` selects the English
recognizer (with person label `PERSON`); every other value falls through,
without error, to the French recognizer and its person label `PER`; from
the selected recognizer's spans exactly those with the selected label,
trimmed length above 2, and not pure whitespace are kept, tagged with
source `'spacy'` (the learned recognizer). -/
theorem c8_dispatch (d : Detector) (text : Text) (language : String)
    (h : text.all isSpaceChar = false) (hcl : d.classify text = .ok language) :
    (language = "en" →
      d.detect_pii_entities text =
        (match d.recog_en text with
          | .error err => .error err
          | .ok spans => .ok (detectCore "en" spans (d.patternMatches text)))) ∧
    (language ≠ "en" →
      d.detect_pii_entities text =
        (match d.recog_fr text with
          | .error err => .error err
          | .ok spans => .ok (detectCore language spans (d.patternMatches text)))) ∧
    sensLabelOf "en" = "PERSON" ∧
    (language ≠ "en" → sensLabelOf language = "PER") ∧
    (∀ lang2 sens spans ent,
      ent ∈ spacyFilter lang2 sens spans ↔
        ∃ s ∈ spans, s.label = sens ∧ 2 < (pyStrip s.text).length ∧
          pyIsSpace s.text = false ∧ ent = mkSpacyEntity lang2 s) ∧
    (∀ lang2 s, (mkSpacyEntity lang2 s).source = "spacy") := by
  refine ⟨?_, ?_, rfl, ?_, ?_, fun _ _ => rfl⟩
  · intro hen
    subst hen
    unfold Detector.detect_pii_entities
    rw [if_neg (by simp [h]), hcl]
    dsimp only
    rw [if_pos rfl]
  · intro hne
    unfold Detector.detect_pii_entities
    rw [if_neg (by simp [h]), hcl]
    dsimp only
    rw [if_neg hne]
  · intro hne
    unfold sensLabelOf
    rw [if_neg hne]
  · intro lang2 sens spans ent
    rw [mem_spacyFilter]
    constructor
    · rintro ⟨s, hs, hk, he⟩
      obtain ⟨h1, h2, h3⟩ := (spacyKeep_eq_true sens s).mp hk
      exact ⟨s, hs, h1, h2, h3, he⟩
    · rintro ⟨s, hs, h1, h2, h3, he⟩
      exact ⟨s, hs, (spacyKeep_eq_true sens s).mpr ⟨h1, h2, h3⟩, he⟩

theorem c8_witness :
    stdDetector.detect_pii_entities exampleText =
      (match stdDetector.recog_en exampleText with
        | .error err => .error err
        | .ok spans => .ok (detectCore "en" spans
            (stdDetector.patternMatches exampleText))) ∧
    sensLabelOf "en" = "PERSON" ∧
    (johnEntity ∈ spacyFilter "en" "PERSON" [johnSpan] ↔
      ∃ s ∈ [johnSpan], s.label = "PERSON" ∧ 2 < (pyStrip s.text).length ∧
        pyIsSpace s.text = false ∧ johnEntity = mkSpacyEntity "en" s) :=
  ⟨(c8_dispatch stdDetector exampleText "en" (by decide) rfl).1 rfl,
   (c8_dispatch stdDetector exampleText "en" (by decide) rfl).2.2.1,
   (c8_dispatch stdDetector exampleText "en" (by decide) rfl).2.2.2.2.1
     "en" "PERSON" [johnSpan] johnEntity⟩

/-- C9: any strategy other than `redact`, `mask` and `block` falls into
`_get_replacement`'s final `else`, which returns the same marker as
`redact`, so `redact_pii` returns exactly the `redact` result — same
rewritten text, same entities, no error. -/
theorem c9_unknown_strategy (d : Detector) (text : Text) (strategy : String)
    (h1 : strategy ≠ "redact") (h2 : strategy ≠ "mask") (h3 : strategy ≠ "block") :
    d.redact_pii text strategy = d.redact_pii text "redact" := by
  have hrep : ∀ e : Entity, get_replacement e strategy = get_replacement e "redact" := by
    intro e
    rw [get_replacement_not_block e strategy h3]
    unfold pureReplacement
    rw [if_neg h1, if_neg h2]
    rfl
  have hloop : ∀ (l : List Entity) (t : Text),
      redactLoop strategy t l = redactLoop "redact" t l := by
    intro l
    induction l with
    | nil => intro t; rfl
    | cons e rest ih =>
      intro t
      rw [redactLoop_cons, redactLoop_cons, hrep e]
      cases get_replacement e "redact" with
      | error err => rfl
      | ok replacement => exact ih _
  unfold Detector.redact_pii
  cases d.detect_pii_entities text with
  | error err => rfl
  | ok entities =>
    dsimp only
    unfold redactStage
    rw [hloop]

theorem c9_witness :
    stdDetector.redact_pii exampleText "anonymize" =
      stdDetector.redact_pii exampleText "redact" :=
  c9_unknown_strategy stdDetector exampleText "anonymize"
    (by decide) (by decide) (by decide)

/-- C10: `get_pii_summary` detects twice — once directly and once inside
`redact_pii` — and, detection being a fixed function of the text in this
embedding, both runs agree; the returned summary is internally consistent:
the flag holds exactly when `details` is non-empty, the count is its
length, `entity_types` contains exactly the labels of `details`,
`safe_text` is the `redact`-strategy rewrite of the same entity list, and
`details` is the detection result itself. -/
theorem c10_summary_consistency (d : Detector) (text : Text) (s : PiiSummary)
    (h : d.get_pii_summary text = .ok s) :
    (s.has_confidential_info = true ↔ s.details ≠ []) ∧
    s.entities_found = s.details.length ∧
    (∀ lab, lab ∈ s.entity_types ↔ ∃ e ∈ s.details, e.label = lab) ∧
    d.detect_pii_entities text = .ok s.details ∧
    redactStage "redact" text s.details = .ok s.safe_text := by
  unfold Detector.get_pii_summary at h
  cases hdet : d.detect_pii_entities text with
  | error err => rw [hdet] at h; cases h
  | ok entities =>
    rw [hdet] at h
    dsimp only at h
    cases hred : d.redact_pii text "redact" with
    | error err => rw [hred] at h; cases h
    | ok p =>
      rw [hred] at h
      dsimp only at h
      injection h with h2
      subst h2
      unfold Detector.redact_pii at hred
      rw [hdet] at hred
      dsimp only at hred
      cases hstage : redactStage "redact" text entities with
      | error err => rw [hstage] at hred; cases hred
      | ok redacted =>
        rw [hstage] at hred
        dsimp only at hred
        injection hred with h3
        refine ⟨?_, rfl, ?_, rfl, ?_⟩
        · show (decide (0 < entities.length) = true ↔ entities ≠ [])
          simp [List.length_pos]
        · intro lab
          show lab ∈ (entities.map (fun e => e.label)).dedup ↔
            ∃ e ∈ entities, e.label = lab
          simp [List.mem_dedup, List.mem_map]
        · show Except.ok redacted = Except.ok p.1
          rw [← h3]

theorem c10_witness :
    (exampleSummary.has_confidential_info = true ↔ exampleSummary.details ≠ []) ∧
    exampleSummary.entities_found = exampleSummary.details.length ∧
    stdDetector.detect_pii_entities exampleText = .ok exampleSummary.details :=
  ⟨(c10_summary_consistency stdDetector exampleText exampleSummary rfl).1,
   (c10_summary_consistency stdDetector exampleText exampleSummary rfl).2.1,
   (c10_summary_consistency stdDetector exampleText exampleSummary rfl).2.2.2.1⟩

end LegalGuard
